import Mathlib

/-!
Verification of the audio/circuit transcoding pipeline of `spice2sound.py`
(SaltyHash/spice-audio-tools).

The pipeline decodes little-endian signed PCM samples into rationals,
writes a time/voltage excitation table, resolves the transient-simulation
horizon, hands the excitation to an opaque simulator, drops the first
response sample, peak-normalizes, loudness-matches against the input's
RMS, and encodes to 16-bit PCM.  Sample values are modelled exactly:
rationals where the code's float arithmetic is rational, and reals where
square roots (RMS) appear.
-/

section Defs

variable {α : Type} [LinearOrderedField α]

/-- Little-endian unsigned integer read from a byte list
(`struct.unpack` with format `<b`, `<h`, `<i` — unsigned accumulation part). -/
def leUnsigned (bs : List ℕ) : ℕ :=
  bs.foldr (fun b acc => b + 256 * acc) 0

/-- Little-endian signed integer of width `w` bytes read from a byte list:
two's-complement interpretation, as `struct.unpack` does for signed formats. -/
def leSigned (w : ℕ) (bs : List ℕ) : ℤ :=
  if (leUnsigned bs : ℤ) < 2 ^ (8 * w - 1) then (leUnsigned bs : ℤ)
  else (leUnsigned bs : ℤ) - 2 ^ (8 * w)

/-- `struct.unpack_from('<N{b,h,i}', frames)`: split the byte stream into `n`
little-endian signed integers of `w` bytes each (spice2sound.py line 47). -/
def unpackSamples (w n : ℕ) (bytes : List ℕ) : List ℤ :=
  (List.range n).map (fun i => leSigned w ((bytes.drop (i * w)).take w))

/-- `input_audio_values / (2 ** (8 * sample_width) - 1)`
(spice2sound.py line 48): decode one integer sample to a scaled value. -/
def decodeSample (w : ℕ) (n : ℤ) : ℚ :=
  (n : ℚ) / (2 ^ (8 * w) - 1)

/-- `reshape(-1, channel_cnt).T` then row `c` (spice2sound.py line 50):
frame `i` of channel `c` sits at linear offset `i * channelCnt + c`. -/
def channelSamples (vals : List α) (channelCnt c : ℕ) : List α :=
  (List.range (vals.length / channelCnt)).map
    (fun i => vals.getD (i * channelCnt + c) 0)

/-- Mean of squares of a list (the argument of the square root in
`rms`, spice2sound.py line 14); empty list gives `0` (Lean's `x / 0 = 0`). -/
def meanSq (v : List α) : α :=
  (v.map (fun x => x ^ 2)).sum / (v.length : α)

/-- `rms(v)` for one row (spice2sound.py lines 12-14):
`np.sqrt(np.mean(np.power(v, 2)))`. -/
noncomputable def rmsR (v : List ℝ) : ℝ :=
  Real.sqrt (meanSq v)

/-- `np.max(rms(input_audio_values))` (spice2sound.py line 51): the maximum
per-channel RMS. -/
noncomputable def maxChannelRms (vals : List ℝ) (channelCnt : ℕ) : ℝ :=
  ((List.range channelCnt).map (fun c => rmsR (channelSamples vals channelCnt c))).foldr max 0

/-- `np.max(np.abs(v))` over a series, as a fold with neutral element `0`
(agrees with numpy on any nonempty list since the entries are absolute values). -/
def maxAbs (v : List α) : α :=
  (v.map (fun x => |x|)).foldr max 0

/-- `output_values / np.max(np.abs(output_values))` (spice2sound.py line 120):
peak-normalization. -/
def peakNorm (v : List α) : List α :=
  v.map (fun x => x / maxAbs v)

/-- `output_values * input_audio_rms / np.max(rms(output_values))`
(spice2sound.py line 123): rescale so that the RMS matches `target`. -/
noncomputable def loudnessMatch (target : ℝ) (v : List ℝ) : List ℝ :=
  v.map (fun x => x * target / rmsR v)

/-- Lines 117-123 of spice2sound.py applied to a parsed response list that
already lost its head: peak-normalize then loudness-match. -/
noncomputable def normalizeSeries (target : ℝ) (v : List ℝ) : List ℝ :=
  loudnessMatch target (peakNorm v)

/-- `sim_time = max_sim_time if not sim_time else min(sim_time, max_sim_time)`
(spice2sound.py line 33).  Python truthiness: a supplied `0` cap is falsy and
behaves like no cap at all. -/
def resolveSimTime (simTime : Option α) (maxSimTime : α) : α :=
  match simTime with
  | none => maxSimTime
  | some t => if t = 0 then maxSimTime else min t maxSimTime

/-- `1 if (channel_cnt > 1 and channel == 'right') else 0`
(spice2sound.py line 79). -/
def selectChannelIndex (channelCnt : ℕ) (channel : Option String) : ℕ :=
  if 1 < channelCnt ∧ channel = some "right" then 1 else 0

/-- The excitation-file writing loop (spice2sound.py lines 77-81): starting
from timestamp `t`, one `(timestamp, value)` pair per sample, the timestamp
advancing by `step` after every line. -/
def excitationLoop (t step : α) : List α → List (α × α)
  | [] => []
  | v :: rest => (t, v) :: excitationLoop (t + step) step rest

/-- The excitation table for one channel: `t` starts at `0` and advances by
`1 / framerate` per line (spice2sound.py lines 77-81). -/
def excitationPairs (samples : List α) (framerate : α) : List (α × α) :=
  excitationLoop 0 (1 / framerate) samples

/-- Truncation toward zero, the conversion `numpy.astype(int)` performs on a
float (C-style cast). -/
def truncToZero [FloorRing α] (x : α) : ℤ :=
  if 0 ≤ x then ⌊x⌋ else ⌈x⌉

/-- `(value * 32767).astype(int)` for one output sample
(spice2sound.py line 132). -/
def encodeSample [FloorRing α] (s : α) : ℤ :=
  truncToZero (s * 32767)

/-- The two bytes `struct.pack('<h', n)` emits for an in-range integer. -/
def packInt16LE (n : ℤ) : List ℕ :=
  [(n % 65536 % 256).toNat, (n % 65536 / 256).toNat]

/-- `struct.pack('<Nh', *ints)` over the scaled output samples
(spice2sound.py lines 130-133): fails (raises `struct.error`) when any
scaled integer falls outside the signed 16-bit range. -/
def encodeFrames [FloorRing α] (v : List α) : Option (List ℕ) :=
  if ∀ s ∈ v, -32768 ≤ encodeSample s ∧ encodeSample s ≤ 32767 then
    some (v.flatMap (fun s => packInt16LE (encodeSample s)))
  else none

end Defs

/-- The ways the modelled pipeline can fail. -/
inductive SpiceErr where
  | unsupportedFormat (width : ℕ)
  | emptyResponse
  | packOutOfRange
  deriving DecidableEq

/-- What a successful pipeline run produces: the excitation table handed to
the simulator, the resolved transient horizon, and the PCM bytes written to
the output file. -/
structure SpiceOutput where
  excitation : List (ℝ × ℝ)
  horizon : ℝ
  outputBytes : List ℕ

/-- Lines 47-48 of spice2sound.py: unpack the raw bytes into little-endian
signed integers and scale each by `1 / (2^(8*w) - 1)`. -/
noncomputable def decodedValues (w n : ℕ) (frames : List ℕ) : List ℝ :=
  (unpackSamples w n frames).map (fun k => ((decodeSample w k : ℚ) : ℝ))

/-- Lines 113-133 of spice2sound.py: given the input's reference RMS, the
excitation table, the resolved horizon and the parsed response column, drop
the `t = 0` sample (`pop(0)` — fails on an empty response), peak-normalize,
loudness-match, and pack to 16-bit PCM. -/
noncomputable def processResponse (inputRms : ℝ) (exc : List (ℝ × ℝ)) (horizon : ℝ) :
    List ℝ → Except SpiceErr SpiceOutput
  | [] => .error .emptyResponse
  | _ :: rest =>
    match encodeFrames (normalizeSeries inputRms rest) with
    | none => .error .packOutOfRange
    | some outBytes => .ok ⟨exc, horizon, outBytes⟩

/-- The `spice2sound` pipeline (spice2sound.py lines 29-135) with the
external `ngspice` call abstracted as an opaque function `sim` from the
excitation table to the parsed response column.  Mirrors the code's order:
sample-width check, decode, horizon resolution, input RMS, channel
selection, excitation writing, simulation, drop-first-sample, peak
normalization, loudness matching, 16-bit packing. -/
noncomputable def spice2sound (sampleWidth channelCnt frameCnt : ℕ)
    (framerate : ℝ) (frames : List ℕ) (channel : Option String)
    (simTime : Option ℝ) (sim : List (ℝ × ℝ) → List ℝ) :
    Except SpiceErr SpiceOutput :=
  if sampleWidth = 1 ∨ sampleWidth = 2 ∨ sampleWidth = 4 then
    processResponse
      (maxChannelRms (decodedValues sampleWidth (channelCnt * frameCnt) frames) channelCnt)
      (excitationPairs
        (channelSamples (decodedValues sampleWidth (channelCnt * frameCnt) frames)
          channelCnt (selectChannelIndex channelCnt channel)) framerate)
      (resolveSimTime simTime ((frameCnt : ℝ) / framerate))
      (sim (excitationPairs
        (channelSamples (decodedValues sampleWidth (channelCnt * frameCnt) frames)
          channelCnt (selectChannelIndex channelCnt channel)) framerate))
  else .error (.unsupportedFormat sampleWidth)

/-- Exit status of a run: the script returns `1` on error paths and `0` on
success (spice2sound.py lines 45 and 135). -/
def exitCode : Except SpiceErr SpiceOutput → ℕ
  | .error _ => 1
  | .ok _ => 0

/-! ## Helper lemmas -/

theorem packInt16LE_length (n : ℤ) : (packInt16LE n).length = 2 := rfl

theorem flatMap_pair_length {β : Type} (f : β → List ℕ)
    (hf : ∀ b, (f b).length = 2) (v : List β) :
    (v.flatMap f).length = 2 * v.length := by
  induction v with
  | nil => simp
  | cons a l ih =>
    simp only [List.flatMap_cons, List.length_append, List.length_cons, hf, ih]
    ring

theorem flatMap_pair_get {β : Type} (f : β → List ℕ)
    (hf : ∀ b, (f b).length = 2) (v : List β) (i : ℕ) (hi : i < v.length) :
    ((v.flatMap f).drop (2 * i)).take 2 = f (v.get ⟨i, hi⟩) := by
  induction v generalizing i with
  | nil => simp at hi
  | cons a l ih =>
    cases i with
    | zero =>
      simp only [List.flatMap_cons, Nat.mul_zero, List.drop_zero, List.get]
      exact List.take_left' (hf a)
    | succ j =>
      have hj : j < l.length := by simpa using Nat.lt_of_succ_lt_succ hi
      have hstep : 2 * (j + 1) = (f a).length + 2 * j := by rw [hf a]; ring
      simp only [List.flatMap_cons, hstep, List.drop_append, List.get]
      exact ih j hj

theorem leSigned_packInt16LE (n : ℤ) (h1 : -32768 ≤ n) (h2 : n ≤ 32767) :
    leSigned 2 (packInt16LE n) = n := by
  have h65 : (0 : ℤ) < 65536 := by norm_num
  have hm0 : 0 ≤ n % 65536 := Int.emod_nonneg n (by norm_num)
  have hm1 : n % 65536 < 65536 := Int.emod_lt_of_pos n h65
  have hb0 : 0 ≤ n % 65536 % 256 := Int.emod_nonneg _ (by norm_num)
  have hb1 : 0 ≤ n % 65536 / 256 := Int.ediv_nonneg hm0 (by norm_num)
  have hsum : (n % 65536 % 256).toNat + 256 * (n % 65536 / 256).toNat = (n % 65536).toNat := by
    have := Int.emod_add_ediv (n % 65536) 256
    omega
  have hcast : ((leUnsigned (packInt16LE n) : ℕ) : ℤ) = n % 65536 := by
    unfold leUnsigned packInt16LE
    simp only [List.foldr_cons, List.foldr_nil, Nat.mul_zero, Nat.add_zero]
    omega
  unfold leSigned
  rw [hcast]
  have hpow : (2 : ℤ) ^ (8 * 2 - 1) = 32768 := by norm_num
  have hpow2 : (2 : ℤ) ^ (8 * 2) = 65536 := by norm_num
  rw [hpow, hpow2]
  by_cases hn : 0 ≤ n
  · have : n % 65536 = n := Int.emod_eq_of_lt hn (by omega)
    rw [this, if_pos (by omega)]
  · have hmod : n % 65536 = n + 65536 := by
      have h1' : (n + 65536) % 65536 = n % 65536 := by
        conv_rhs => rw [show n = n + 65536 - 65536 by ring]
        rw [Int.sub_emod, Int.emod_self, Int.sub_zero, Int.emod_emod_of_dvd _ (by norm_num)]
      rw [← h1', Int.emod_eq_of_lt (by omega) (by omega)]
    rw [hmod, if_neg (by omega)]
    ring

/-! ## Claim theorems -/

/-- Claim C1, counterexample: at the concrete sample `s = 1/2` the code's
conversion `(s * 32767).astype(int)` yields `16383` (truncation toward
zero), not `round(s * 32767) = 16384` as the claim states. -/
theorem C1_counterexample :
    encodeSample ((1 : ℚ) / 2) ≠ round (((1 : ℚ) / 2) * 32767) := by
  have hl : encodeSample ((1 : ℚ) / 2) = 16383 := by
    unfold encodeSample truncToZero
    norm_num
  have hr : round (((1 : ℚ) / 2) * 32767) = 16384 := by
    rw [round_eq]; norm_num
  rw [hl, hr]; norm_num

/-- Claim C1 (amended): PCM encoding maps each sample `s` of the
loudness-matched series to `int(s * 32767)` truncated toward zero (numpy's
`astype(int)`), packed as a little-endian signed 16-bit integer — whenever
every scaled integer is inside the 16-bit range, the output byte stream
holds, at offset `2*i`, exactly the two little-endian bytes of the
truncated integer of sample `i`, and reading them back as a little-endian
signed 16-bit integer recovers that integer. -/
theorem C1_encode_truncates_and_packs_le (v : List ℚ)
    (hr : ∀ s ∈ v, -32768 ≤ encodeSample s ∧ encodeSample s ≤ 32767) :
    ∃ bs, encodeFrames v = some bs ∧ bs.length = 2 * v.length ∧
      ∀ i (hi : i < v.length),
        (bs.drop (2 * i)).take 2 = packInt16LE (encodeSample (v.get ⟨i, hi⟩)) ∧
        leSigned 2 ((bs.drop (2 * i)).take 2) = encodeSample (v.get ⟨i, hi⟩) := by
  refine ⟨v.flatMap (fun s => packInt16LE (encodeSample s)), ?_, ?_, ?_⟩
  · unfold encodeFrames
    rw [if_pos hr]
  · exact flatMap_pair_length _ (fun b => packInt16LE_length _) v
  · intro i hi
    have hget := flatMap_pair_get (fun s => packInt16LE (encodeSample s))
      (fun b => packInt16LE_length _) v i hi
    refine ⟨hget, ?_⟩
    rw [hget]
    have hmem := List.get_mem v i hi
    exact leSigned_packInt16LE _ (hr _ hmem).1 (hr _ hmem).2

/-- Claim C1, witness: the single-sample series `[1/2]` is encoded, its two
bytes are `[255, 63]` (little-endian `16383`), and they read back as
`16383`. -/
theorem C1_witness :
    ∃ bs, encodeFrames [(1 : ℚ) / 2] = some bs ∧ bs.length = 2 * ([(1 : ℚ) / 2]).length ∧
      ∀ i (hi : i < ([(1 : ℚ) / 2]).length),
        (bs.drop (2 * i)).take 2 = packInt16LE (encodeSample (([(1 : ℚ) / 2]).get ⟨i, hi⟩)) ∧
        leSigned 2 ((bs.drop (2 * i)).take 2) =
          encodeSample (([(1 : ℚ) / 2]).get ⟨i, hi⟩) := by
  apply C1_encode_truncates_and_packs_le
  intro s hs
  rw [List.mem_singleton] at hs
  subst hs
  constructor <;> (unfold encodeSample truncToZero; norm_num)

/-- Claim C2, counterexample: for the 8-bit format the minimum integer
`-2^7 = -128` decodes to `-128/255 ≈ -0.502`, not to exactly `-1.0` as the
claim states. -/
theorem C2_counterexample :
    decodeSample 1 (-(2 ^ (8 * 1 - 1))) ≠ -1 := by
  unfold decodeSample
  norm_num

/-- Claim C2 (amended): for every supported sample width `w ∈ {1,2,4}`,
decoding divides the little-endian signed integer sample by
`2^(8*w) - 1`; under this mapping the format's most positive integer
`2^(8*w-1) - 1` decodes to a value strictly less than `1.0`, and the
format's minimum integer `-2^(8*w-1)` decodes to
`-2^(8*w-1) / (2^(8*w) - 1)` — strictly greater than `-1.0` (about `-1/2`),
not exactly `-1.0` — whose magnitude still strictly exceeds the most
positive decoded value (the asymmetry around zero). -/
theorem C2_decode_scaling (w : ℕ) (hw : w = 1 ∨ w = 2 ∨ w = 4) :
    (∀ n : ℤ, decodeSample w n = (n : ℚ) / (2 ^ (8 * w) - 1)) ∧
    decodeSample w (2 ^ (8 * w - 1) - 1) < 1 ∧
    -1 < decodeSample w (-(2 ^ (8 * w - 1))) ∧
    decodeSample w (-(2 ^ (8 * w - 1))) = -(2 ^ (8 * w - 1)) / (2 ^ (8 * w) - 1) ∧
    decodeSample w (2 ^ (8 * w - 1) - 1) < |decodeSample w (-(2 ^ (8 * w - 1)))| := by
  refine ⟨fun n => rfl, ?_⟩
  rcases hw with h | h | h <;> subst h <;>
    (unfold decodeSample; rw [abs_of_nonpos (by norm_num)]; push_cast; norm_num)

/-- Claim C2, witness: the amended statement evaluated at the 16-bit width:
`32767 / 65535 < 1`, `-1 < -32768 / 65535`, and the magnitude of the
decoded minimum exceeds the decoded maximum. -/
theorem C2_witness :
    (∀ n : ℤ, decodeSample 2 n = (n : ℚ) / (2 ^ (8 * 2) - 1)) ∧
    decodeSample 2 (2 ^ (8 * 2 - 1) - 1) < 1 ∧
    -1 < decodeSample 2 (-(2 ^ (8 * 2 - 1))) ∧
    decodeSample 2 (-(2 ^ (8 * 2 - 1))) = -(2 ^ (8 * 2 - 1)) / (2 ^ (8 * 2) - 1) ∧
    decodeSample 2 (2 ^ (8 * 2 - 1) - 1) < |decodeSample 2 (-(2 ^ (8 * 2 - 1)))| :=
  C2_decode_scaling 2 (Or.inr (Or.inl rfl))

/-- Claim C4, counterexample: a user-supplied cap of `0` seconds is falsy in
Python (`not sim_time` is true), so the code uses the full input duration
(`5` here) instead of `min(0, 5) = 0` as the claim requires. -/
theorem C4_counterexample :
    resolveSimTime (some (0 : ℚ)) 5 ≠ min 0 5 := by
  unfold resolveSimTime
  norm_num

/-- Claim C4 (amended): when the user supplies a nonzero `sim_time` cap the
transient horizon is `min(cap, frame_count / sample_rate)`; when no cap is
supplied — or when the supplied cap is `0`, which Python truthiness treats
as unset — the horizon is the full input duration; in every case the
horizon never exceeds the input duration. -/
theorem C4_sim_time_clamped (d : ℚ) (s : Option ℚ) :
    (∀ t : ℚ, t ≠ 0 → resolveSimTime (some t) d = min t d) ∧
    resolveSimTime (none : Option ℚ) d = d ∧
    resolveSimTime (some (0 : ℚ)) d = d ∧
    resolveSimTime s d ≤ d := by
  refine ⟨fun t ht => ?_, rfl, ?_, ?_⟩
  · show (if t = 0 then d else min t d) = min t d
    rw [if_neg ht]
  · show (if (0 : ℚ) = 0 then d else min 0 d) = d
    rw [if_pos rfl]
  · match s with
    | none => exact le_refl d
    | some t =>
      show (if t = 0 then d else min t d) ≤ d
      by_cases ht : t = 0
      · rw [if_pos ht]
      · rw [if_neg ht]
        exact min_le_right t d

/-- Claim C4, witness: with input duration `5`, a supplied cap of `3` gives
horizon `min 3 5`, no cap gives `5`, a zero cap gives `5`, and a supplied
cap of `7` yields a horizon at most `5`. -/
theorem C4_witness :
    resolveSimTime (some (3 : ℚ)) 5 = min 3 5 ∧
    resolveSimTime (none : Option ℚ) 5 = 5 ∧
    resolveSimTime (some (0 : ℚ)) 5 = 5 ∧
    resolveSimTime (some (7 : ℚ)) 5 ≤ 5 :=
  ⟨(C4_sim_time_clamped 5 (some 3)).1 3 (by norm_num),
   (C4_sim_time_clamped 5 (none : Option ℚ)).2.1,
   (C4_sim_time_clamped 5 (some 0)).2.2.1,
   (C4_sim_time_clamped 5 (some 7)).2.2.2⟩

/-- Claim C5: the channel index fed to the excitation writer is `1` (right)
exactly when the caller requests `right` and the input has at least two
channels; in every other case it is `0`; and for a 2-channel input with
`channel = right` the selected excitation series is exactly the right
channel's samples. -/
theorem C5_channel_selection (cnt : ℕ) (ch : Option String) (vals : List ℚ) :
    (selectChannelIndex cnt ch = 1 ↔ ch = some "right" ∧ 2 ≤ cnt) ∧
    (¬(ch = some "right" ∧ 2 ≤ cnt) → selectChannelIndex cnt ch = 0) ∧
    channelSamples vals 2 (selectChannelIndex 2 (some "right")) = channelSamples vals 2 1 := by
  have hsel : ∀ c : ℕ, ∀ o : Option String,
      selectChannelIndex c o = if 1 < c ∧ o = some "right" then 1 else 0 := fun _ _ => rfl
  refine ⟨?_, ?_, ?_⟩
  · rw [hsel]
    by_cases h : 1 < cnt ∧ ch = some "right"
    · rw [if_pos h]
      exact ⟨fun _ => ⟨h.2, h.1⟩, fun _ => rfl⟩
    · rw [if_neg h]
      exact ⟨fun hc => absurd hc (by norm_num), fun hc => absurd ⟨hc.2, hc.1⟩ h⟩
  · intro h
    rw [hsel, if_neg (fun hc => h ⟨hc.2, hc.1⟩)]
  · rw [hsel, if_pos ⟨by norm_num, rfl⟩]

/-- Claim C5, witness: on the concrete interleaved stream `[10, 20, 30, 40]`
with two channels and `channel = right`, the selected index is `1` and the
selected series is the right channel `[20, 40]`. -/
theorem C5_witness :
    selectChannelIndex 2 (some "right") = 1 ∧
    channelSamples ([10, 20, 30, 40] : List ℚ) 2 (selectChannelIndex 2 (some "right")) =
      channelSamples ([10, 20, 30, 40] : List ℚ) 2 1 := by
  refine ⟨(C5_channel_selection 2 (some "right") []).1.mpr ⟨rfl, by norm_num⟩, ?_⟩
  exact (C5_channel_selection 2 (some "right") ([10, 20, 30, 40] : List ℚ)).2.2

theorem excitationLoop_length {α : Type} [LinearOrderedField α] (t step : α) (v : List α) :
    (excitationLoop t step v).length = v.length := by
  induction v generalizing t with
  | nil => rfl
  | cons a l ih => simp [excitationLoop, ih]

theorem excitationLoop_getD {α : Type} [LinearOrderedField α] (t step : α) (v : List α)
    (i : ℕ) (hi : i < v.length) :
    (excitationLoop t step v).getD i (0, 0) = (t + (i : α) * step, v.getD i 0) := by
  induction v generalizing t i with
  | nil => simp at hi
  | cons a l ih =>
    cases i with
    | zero => simp [excitationLoop]
    | succ j =>
      have hj : j < l.length := by simpa using hi
      simp only [excitationLoop, List.getD_cons_succ]
      rw [ih (t + step) j hj]
      congr 1
      push_cast
      ring

/-- Claim C6: the excitation table has exactly one `(timestamp, voltage)`
line per frame of the selected channel, with `timestamp[i] = i / sample_rate`
starting at `0`, hence consecutive timestamps differ by exactly
`1 / sample_rate` and are strictly increasing. -/
theorem C6_excitation_table (samples : List ℚ) (r : ℚ) (hr : 0 < r) :
    (excitationPairs samples r).length = samples.length ∧
    (∀ i, i < samples.length →
      (excitationPairs samples r).getD i (0, 0) = ((i : ℚ) / r, samples.getD i 0)) ∧
    (∀ i, i + 1 < samples.length →
      ((excitationPairs samples r).getD (i + 1) (0, 0)).1 =
        ((excitationPairs samples r).getD i (0, 0)).1 + 1 / r ∧
      ((excitationPairs samples r).getD i (0, 0)).1 <
        ((excitationPairs samples r).getD (i + 1) (0, 0)).1) := by
  have hget : ∀ i, i < samples.length →
      (excitationPairs samples r).getD i (0, 0) = ((i : ℚ) / r, samples.getD i 0) := by
    intro i hi
    unfold excitationPairs
    rw [excitationLoop_getD 0 (1 / r) samples i hi]
    congr 1
    rw [zero_add, mul_one_div]
  refine ⟨excitationLoop_length 0 (1 / r) samples, hget, ?_⟩
  intro i hi
  have h1 := hget i (by omega)
  have h2 := hget (i + 1) hi
  rw [h1, h2]
  constructor
  · push_cast
    rw [div_add_div_same]
  · rw [div_lt_div_iff_of_pos_right hr]
    push_cast
    linarith

/-- Claim C6, witness: for the two-sample channel `[5, 7]` at rate `2`, the
table has two lines, timestamps `0/2` and `1/2`, and the second timestamp is
the first plus `1/2` and strictly larger. -/
theorem C6_witness :
    (excitationPairs ([5, 7] : List ℚ) 2).length = ([5, 7] : List ℚ).length ∧
    (∀ i, i < ([5, 7] : List ℚ).length →
      (excitationPairs ([5, 7] : List ℚ) 2).getD i (0, 0) =
        ((i : ℚ) / 2, ([5, 7] : List ℚ).getD i 0)) ∧
    (∀ i, i + 1 < ([5, 7] : List ℚ).length →
      ((excitationPairs ([5, 7] : List ℚ) 2).getD (i + 1) (0, 0)).1 =
        ((excitationPairs ([5, 7] : List ℚ) 2).getD i (0, 0)).1 + 1 / 2 ∧
      ((excitationPairs ([5, 7] : List ℚ) 2).getD i (0, 0)).1 <
        ((excitationPairs ([5, 7] : List ℚ) 2).getD (i + 1) (0, 0)).1) :=
  C6_excitation_table [5, 7] 2 (by norm_num)

/-- Claim C7: the first parsed response sample is discarded before
normalization, so the normalized output (peak-normalized then
loudness-matched) has exactly `len(parsed_response) - 1` samples. -/
theorem C7_drop_first_sample (parsed : List ℝ) (target : ℝ) (hne : parsed ≠ []) :
    ((normalizeSeries target parsed.tail).length : ℤ) = (parsed.length : ℤ) - 1 := by
  have htail : parsed.tail.length = parsed.length - 1 := List.length_tail parsed
  have hpos : 0 < parsed.length := List.length_pos.mpr hne
  unfold normalizeSeries loudnessMatch peakNorm
  simp only [List.length_map]
  omega

/-- Claim C7, witness: a three-line parsed response `[9, 4, 5]` yields a
normalized output of length `2 = 3 - 1`. -/
theorem C7_witness :
    ((normalizeSeries 1 (([9, 4, 5] : List ℝ).tail)).length : ℤ) =
      (([9, 4, 5] : List ℝ).length : ℤ) - 1 :=
  C7_drop_first_sample [9, 4, 5] 1 (by simp)

section MaxAbsLemmas

variable {α : Type} [LinearOrderedField α]

theorem maxAbs_cons (a : α) (l : List α) : maxAbs (a :: l) = max |a| (maxAbs l) := rfl

theorem maxAbs_nonneg (v : List α) : 0 ≤ maxAbs v := by
  induction v with
  | nil => exact le_refl 0
  | cons a l ih => rw [maxAbs_cons]; exact le_max_of_le_right ih

theorem abs_le_maxAbs (x : α) (v : List α) (hx : x ∈ v) : |x| ≤ maxAbs v := by
  induction v with
  | nil => simp at hx
  | cons a l ih =>
    rw [maxAbs_cons]
    rcases List.mem_cons.mp hx with h | h
    · rw [h]; exact le_max_left _ _
    · exact le_max_of_le_right (ih h)

theorem maxAbs_pos (x : α) (v : List α) (hx : x ∈ v) (hne : x ≠ 0) : 0 < maxAbs v :=
  lt_of_lt_of_le (abs_pos.mpr hne) (abs_le_maxAbs x v hx)

theorem maxAbs_map_div (v : List α) (M : α) (hM : 0 ≤ M) :
    maxAbs (v.map (fun x => x / M)) = maxAbs v / M := by
  induction v with
  | nil => simp [maxAbs]
  | cons a l ih =>
    simp only [List.map_cons, maxAbs_cons, ih]
    rw [abs_div, abs_of_nonneg hM, max_div_div_right hM]

end MaxAbsLemmas

/-- Claim C8: for a response series with at least one nonzero sample,
dividing every sample by the maximum absolute sample value yields a series
whose maximum absolute value is exactly `1` and whose samples all lie in
`[-1, 1]`. -/
theorem C8_peak_normalize (v : List ℚ) (x : ℚ) (hx : x ∈ v) (hne : x ≠ 0) :
    maxAbs (peakNorm v) = 1 ∧ ∀ y ∈ peakNorm v, -1 ≤ y ∧ y ≤ 1 := by
  have hM : 0 < maxAbs v := maxAbs_pos x v hx hne
  have h1 : maxAbs (peakNorm v) = 1 := by
    unfold peakNorm
    rw [maxAbs_map_div v (maxAbs v) hM.le, div_self (ne_of_gt hM)]
  refine ⟨h1, fun y hy => ?_⟩
  have hb := abs_le_maxAbs y (peakNorm v) hy
  rw [h1] at hb
  exact abs_le.mp hb

/-- Claim C8, witness: peak-normalizing the non-silent series `[-4, 2]`
gives maximum absolute value `1` and all samples inside `[-1, 1]`. -/
theorem C8_witness :
    maxAbs (peakNorm ([-4, 2] : List ℚ)) = 1 ∧
    ∀ y ∈ peakNorm ([-4, 2] : List ℚ), -1 ≤ y ∧ y ≤ 1 :=
  C8_peak_normalize [-4, 2] 2 (by simp) (by norm_num)

section RmsLemmas

theorem meanSq_nonneg (v : List ℝ) : 0 ≤ meanSq v := by
  unfold meanSq
  apply div_nonneg
  · apply List.sum_nonneg
    intro y hy
    rcases List.mem_map.mp hy with ⟨x, _, rfl⟩
    exact sq_nonneg x
  · exact Nat.cast_nonneg _

theorem rmsR_nonneg (v : List ℝ) : 0 ≤ rmsR v := Real.sqrt_nonneg _

theorem meanSq_map_mul (v : List ℝ) (c : ℝ) :
    meanSq (v.map (fun x => x * c)) = meanSq v * c ^ 2 := by
  unfold meanSq
  rw [List.length_map, List.map_map]
  have hcomp : ((fun x => x ^ 2) ∘ fun x : ℝ => x * c) = fun x => x ^ 2 * c ^ 2 := by
    funext x
    simp [mul_pow]
  rw [hcomp, List.sum_map_mul_right, mul_div_right_comm]

theorem rmsR_map_mul (v : List ℝ) (c : ℝ) :
    rmsR (v.map (fun x => x * c)) = rmsR v * |c| := by
  unfold rmsR
  rw [meanSq_map_mul, Real.sqrt_mul (meanSq_nonneg v), Real.sqrt_sq_eq_abs]

theorem rmsR_eq_zero_of_all_zero (v : List ℝ) (h : ∀ x ∈ v, x = 0) : rmsR v = 0 := by
  unfold rmsR meanSq
  have hsum : (v.map fun x => x ^ 2).sum = 0 := by
    apply List.sum_eq_zero
    intro y hy
    rcases List.mem_map.mp hy with ⟨x, hx, rfl⟩
    rw [h x hx]
    ring
  rw [hsum, zero_div, Real.sqrt_zero]

theorem exists_ne_zero_of_rmsR_ne_zero (v : List ℝ) (h : rmsR v ≠ 0) : ∃ x ∈ v, x ≠ 0 := by
  by_contra hc
  push_neg at hc
  exact h (rmsR_eq_zero_of_all_zero v hc)

theorem peakNorm_eq_map_mul (v : List ℝ) :
    peakNorm v = v.map (fun x => x * (maxAbs v)⁻¹) := by
  unfold peakNorm
  apply List.map_congr_left
  intro x _
  rw [div_eq_mul_inv]

theorem rmsR_peakNorm (v : List ℝ) : rmsR (peakNorm v) = rmsR v / maxAbs v := by
  rw [peakNorm_eq_map_mul, rmsR_map_mul, abs_inv, abs_of_nonneg (maxAbs_nonneg v),
    div_eq_mul_inv]

end RmsLemmas

/-- Claim C3: for a response series with nonzero RMS and a nonnegative
`target_rms` (the maximum per-channel RMS of the input is nonnegative by
construction), peak-normalizing and then rescaling by
`target_rms / rms(peak_normalized_series)` yields a series whose RMS is
exactly `target_rms`. -/
theorem C3_loudness_match_rms (v : List ℝ) (target : ℝ)
    (hv : rmsR v ≠ 0) (ht : 0 ≤ target) :
    rmsR (normalizeSeries target v) = target := by
  obtain ⟨x, hx, hxne⟩ := exists_ne_zero_of_rmsR_ne_zero v hv
  have hM : 0 < maxAbs v := maxAbs_pos x v hx hxne
  have hrv : 0 < rmsR v := (rmsR_nonneg v).lt_of_ne (Ne.symm hv)
  have hpn_pos : 0 < rmsR (peakNorm v) := by
    rw [rmsR_peakNorm]
    positivity
  unfold normalizeSeries loudnessMatch
  have hfun : (fun x => x * target / rmsR (peakNorm v)) =
      fun x : ℝ => x * (target / rmsR (peakNorm v)) := by
    funext y
    rw [mul_div_assoc]
  rw [hfun, rmsR_map_mul, abs_of_nonneg (div_nonneg ht hpn_pos.le), mul_comm]
  exact div_mul_cancel₀ target (ne_of_gt hpn_pos)

/-- Claim C3, witness: the series `[1]` has RMS `1 ≠ 0`, and loudness
matching it to `target_rms = 2` produces a series of RMS exactly `2`. -/
theorem C3_witness : rmsR (normalizeSeries 2 [1]) = 2 := by
  apply C3_loudness_match_rms
  · have h1 : meanSq ([1] : List ℝ) = 1 := by
      unfold meanSq
      norm_num
    unfold rmsR
    rw [h1, Real.sqrt_one]
    norm_num
  · norm_num

/-- Claim C9: when the sample width in bytes is not `1`, `2` or `4`, the
pipeline stops at the format check with the unsupported-format error and a
non-zero exit status — no excitation table, circuit text or output bytes
are produced. -/
theorem C9_unsupported_width (w cnt fc : ℕ) (r : ℝ) (frames : List ℕ)
    (ch : Option String) (st : Option ℝ) (sim : List (ℝ × ℝ) → List ℝ)
    (hw : ¬(w = 1 ∨ w = 2 ∨ w = 4)) :
    spice2sound w cnt fc r frames ch st sim = .error (.unsupportedFormat w) ∧
    exitCode (spice2sound w cnt fc r frames ch st sim) = 1 := by
  have h : spice2sound w cnt fc r frames ch st sim = .error (.unsupportedFormat w) := by
    unfold spice2sound
    rw [if_neg hw]
  refine ⟨h, ?_⟩
  rw [h]
  rfl

/-- Claim C9, witness: a 3-byte (24-bit) input aborts with the
unsupported-format error and exit status `1`. -/
theorem C9_witness :
    spice2sound 3 1 1 1 [0, 0, 0] none none (fun _ => []) =
      .error (.unsupportedFormat 3) ∧
    exitCode (spice2sound 3 1 1 1 [0, 0, 0] none none (fun _ => [])) = 1 :=
  C9_unsupported_width 3 1 1 1 [0, 0, 0] none none (fun _ => []) (by norm_num)

/-- Claim C10: the encoding stage applies no clipping, so the pipeline can
fail at the pack step.  Concretely: a full-scale one-frame 8-bit input
(byte `127`, decoded value `127/255`, input RMS `127/255`) with a spiky
simulator response `[999, 1, 0, …, 0]` loudness-matches the peak-normalized
response to a head sample of `127/85 > 1`, whose scaled integer
`48957 > 32767` makes `struct.pack('<h', …)` fail: the run ends in the
pack-out-of-range error rather than a clipped output file. -/
theorem C10_encoding_not_total :
    spice2sound 1 1 1 1 [127] none none
      (fun _ => [999, 1, 0, 0, 0, 0, 0, 0, 0, 0]) = .error .packOutOfRange ∧
    1 < (normalizeSeries ((127 : ℝ) / 255) [1, 0, 0, 0, 0, 0, 0, 0, 0]).getD 0 0 := by
  have hvals : decodedValues 1 (1 * 1) [127] = [(127 : ℝ) / 255] := by
    unfold decodedValues unpackSamples leSigned leUnsigned decodeSample
    rw [show List.range (1 * 1) = [0] from by decide]
    simp only [List.map_cons, List.map_nil, List.drop_zero, List.take_succ_cons,
      List.take_zero, List.foldr_cons, List.foldr_nil]
    norm_num
  have hchan : channelSamples [(127 : ℝ) / 255] 1 0 = [(127 : ℝ) / 255] := by
    unfold channelSamples
    rw [show (([(127 : ℝ) / 255]).length / 1) = 1 from by simp,
      show List.range 1 = [0] from by decide]
    simp
  have hrms127 : rmsR [(127 : ℝ) / 255] = 127 / 255 := by
    have hms : meanSq [(127 : ℝ) / 255] = (127 / 255) ^ 2 := by
      unfold meanSq
      norm_num
    unfold rmsR
    rw [hms, Real.sqrt_sq (by norm_num)]
  have hmcr : maxChannelRms [(127 : ℝ) / 255] 1 = 127 / 255 := by
    unfold maxChannelRms
    rw [show List.range 1 = [0] from by decide]
    simp only [List.map_cons, List.map_nil, hchan, hrms127, List.foldr_cons, List.foldr_nil]
    exact max_eq_left (by norm_num)
  have hmaxabs : maxAbs [(1 : ℝ), 0, 0, 0, 0, 0, 0, 0, 0] = 1 := by
    unfold maxAbs
    simp only [List.map_cons, List.map_nil, List.foldr_cons, List.foldr_nil,
      abs_one, abs_zero]
    norm_num
  have hpn : peakNorm [(1 : ℝ), 0, 0, 0, 0, 0, 0, 0, 0] =
      [1, 0, 0, 0, 0, 0, 0, 0, 0] := by
    unfold peakNorm
    rw [hmaxabs]
    norm_num
  have hrms9 : rmsR [(1 : ℝ), 0, 0, 0, 0, 0, 0, 0, 0] = 1 / 3 := by
    have hms : meanSq [(1 : ℝ), 0, 0, 0, 0, 0, 0, 0, 0] = 1 / 9 := by
      unfold meanSq
      norm_num
    unfold rmsR
    rw [hms, show (1 / 9 : ℝ) = (1 / 3) ^ 2 from by norm_num,
      Real.sqrt_sq (by norm_num)]
  have hlm : normalizeSeries ((127 : ℝ) / 255) [1, 0, 0, 0, 0, 0, 0, 0, 0] =
      [127 / 85, 0, 0, 0, 0, 0, 0, 0, 0] := by
    unfold normalizeSeries loudnessMatch
    rw [hpn, hrms9]
    norm_num
  have henc : encodeFrames [(127 : ℝ) / 85, 0, 0, 0, 0, 0, 0, 0, 0] = none := by
    unfold encodeFrames
    rw [if_neg]
    intro hall
    have hle := (hall (127 / 85) (by simp)).2
    have hval : encodeSample ((127 : ℝ) / 85) = 48957 := by
      unfold encodeSample truncToZero
      rw [if_pos (by norm_num)]
      norm_num
    rw [hval] at hle
    norm_num at hle
  constructor
  · unfold spice2sound
    rw [if_pos (by norm_num)]
    rw [hvals, hmcr]
    simp only [processResponse]
    rw [hlm, henc]
  · rw [hlm]
    norm_num
